import Mathlib

set_option maxRecDepth 100000

/-!
Verification of the scaffold-writing routine of `prueba.py` (a Django
clean-architecture project scaffolder) against its specification.

The filesystem is shallowly embedded as a state consisting of a set of
existing directories and an association list of files (path to content).
Paths are lists of components (`FPath`).  The operations `mkdirP`
(`Path.mkdir(parents=True, exist_ok=True)`), `write_text`
(`Path.write_text`, an unconditional overwrite), and `create_structure`
are translated directly from the source.  Python's `str.replace` is
embedded as `replaceAux` (leftmost, non-overlapping textual replacement).
-/

/-- A filesystem path, relative to the filesystem root, as a list of
path components. -/
abbrev FPath := List String

/-- A filesystem state: the set of existing directories (the root `[]`
always exists and is left implicit) and an association list mapping file
paths to their text content. -/
structure FS where
  dirs : List FPath
  files : List (FPath × String)
deriving Repr, DecidableEq

/-- Boolean membership of a path in a list of paths. -/
def memP : List FPath → FPath → Bool
  | [], _ => false
  | p :: rest, q => if q = p then true else memP rest q

/-- Association-list lookup of a file's content; the first binding wins. -/
def lookupA : List (FPath × String) → FPath → Option String
  | [], _ => none
  | (p, c) :: rest, q => if q = p then some c else lookupA rest q

/-- `p` exists as a directory in `fs` (the root `[]` always exists). -/
def isDir (fs : FS) (p : FPath) : Bool :=
  p.isEmpty || memP fs.dirs p

/-- The content of the file at `p` in `fs`, if any. -/
def lookupFile (fs : FS) (p : FPath) : Option String :=
  lookupA fs.files p

/-- `p` exists as a regular file in `fs`. -/
def isFile (fs : FS) (p : FPath) : Bool :=
  (lookupFile fs p).isSome

/-- The single error kind of the embedded filesystem: a path component
collides with an entry of the wrong kind (file where a directory is
needed, directory where a file is to be written, missing parent). -/
inductive FsError where
  | collision
deriving Repr, DecidableEq

/-- All nonempty prefixes of a path, shortest first. -/
def prefixesNE : FPath → List FPath
  | [] => []
  | a :: rest => [a] :: (prefixesNE rest).map (fun q => a :: q)

/-- Embedding of `Path.mkdir(parents=True, exist_ok=True)`: create the
directory and every missing ancestor; succeed silently when any of them
already exists as a directory; fail only when the path or one of its
ancestors exists as a regular file. -/
def mkdirP (fs : FS) (p : FPath) : Except FsError FS :=
  if (prefixesNE p).any (fun q => isFile fs q) then
    .error .collision
  else
    .ok { fs with dirs := prefixesNE p ++ fs.dirs }

/-- Embedding of `Path.write_text` (mode `"w"`): unconditional overwrite
of the file at `p`; fails only when `p` is an existing directory or when
its parent directory does not exist. -/
def write_text (fs : FS) (p : FPath) (content : String) : Except FsError FS :=
  if isDir fs p then
    .error .collision
  else if !(isDir fs p.dropLast) then
    .error .collision
  else
    .ok { fs with files := (p, content) :: fs.files }

/-- `DIRECTORIES` from the source: the fixed relative directory layout. -/
def DIRECTORIES : List FPath :=
  [ ["src"],
    ["src", "apps"],
    ["src", "config"],
    ["src", "config", "settings"],
    ["src", "core"],
    ["src", "core", "application"],
    ["src", "core", "domain"],
    ["src", "core", "infrastructure"],
    ["src", "core", "presentation"],
    ["tests"] ]

/-- The placeholder token substituted at write time. -/
def placeholder : String := "\x7bproject_name\x7d"

/-- Template for `README.md` (after `dedent`/`strip`, with a final newline). -/
def readmeTemplate : String :=
  "# \x7bproject_name\x7d\n\nEste proyecto fue generado automáticamente utilizando el script de plantilla.\nEl objetivo es proporcionar una estructura inicial basada en Clean Architecture\npara un proyecto de Django, separando las responsabilidades en capas bien definidas.\n"

/-- Template for `manage.py`. -/
def managePyTemplate : String :=
  "#!/usr/bin/env python\n\"\"\"Punto de entrada para las tareas administrativas de Django.\"\"\"\n\nimport os\nimport sys\n\n\ndef main() -> None:\n    os.environ.setdefault(\"DJANGO_SETTINGS_MODULE\", \"src.config.settings.base\")\n    try:\n        from django.core.management import execute_from_command_line\n    except ImportError as exc:  # pragma: no cover - Django puede no estar instalado durante las pruebas\n        raise ImportError(\n            \"No se pudo importar Django. Asegúrate de que esté instalado en tu entorno.\"\n        ) from exc\n    execute_from_command_line(sys.argv)\n\n\nif __name__ == \"__main__\":\n    main()\n"

/-- Template for `pyproject.toml`. -/
def pyprojectTemplate : String :=
  "[build-system]\nrequires = [\"setuptools\", \"wheel\"]\nbuild-backend = \"setuptools.build_meta\"\n\n[project]\nname = \"\x7bproject_name\x7d\"\nversion = \"0.1.0\"\ndescription = \"Plantilla base de Django con Clean Architecture\"\nreadme = \"README.md\"\nrequires-python = \">=3.10\"\nauthors = [\n    \x7b name = \"Plantilla Automática\", email = \"dev@example.com\" \x7d\n]\ndependencies = [\n    \"django>=4.2\",\n]\n"

/-- Template for `src/config/settings/base.py`. -/
def basePyTemplate : String :=
  "\"\"\"Configuración base del proyecto Django.\"\"\"\n\nfrom pathlib import Path\n\nBASE_DIR = Path(__file__).resolve().parent.parent.parent\n\nSECRET_KEY = \"django-insecure-change-me\"\nDEBUG = True\nALLOWED_HOSTS: list[str] = []\n\nINSTALLED_APPS = [\n    \"django.contrib.admin\",\n    \"django.contrib.auth\",\n    \"django.contrib.contenttypes\",\n    \"django.contrib.sessions\",\n    \"django.contrib.messages\",\n    \"django.contrib.staticfiles\",\n]\n\nMIDDLEWARE = [\n    \"django.middleware.security.SecurityMiddleware\",\n    \"django.contrib.sessions.middleware.SessionMiddleware\",\n    \"django.middleware.common.CommonMiddleware\",\n    \"django.middleware.csrf.CsrfViewMiddleware\",\n    \"django.contrib.auth.middleware.AuthenticationMiddleware\",\n    \"django.contrib.messages.middleware.MessageMiddleware\",\n    \"django.middleware.clickjacking.XFrameOptionsMiddleware\",\n]\n\nROOT_URLCONF = \"src.config.urls\"\nWSGI_APPLICATION = \"src.config.wsgi.application\"\n\nDATABASES = \x7b\n    \"default\": \x7b\n        \"ENGINE\": \"django.db.backends.sqlite3\",\n        \"NAME\": BASE_DIR / \"db.sqlite3\",\n    \x7d\n\x7d\n\nAUTH_PASSWORD_VALIDATORS = []\n\nLANGUAGE_CODE = \"es-es\"\nTIME_ZONE = \"UTC\"\nUSE_I18N = True\nUSE_TZ = True\n\nSTATIC_URL = \"static/\"\n\nDEFAULT_AUTO_FIELD = \"django.db.models.BigAutoField\"\n"

/-- Template for `src/config/urls.py`. -/
def urlsPyTemplate : String :=
  "\"\"\"Configuración de URLs del proyecto.\"\"\"\n\nfrom django.contrib import admin\nfrom django.urls import path\n\nurlpatterns = [\n    path(\"admin/\", admin.site.urls),\n]\n"

/-- Template for `src/config/wsgi.py`. -/
def wsgiPyTemplate : String :=
  "\"\"\"Configuración WSGI para el proyecto.\"\"\"\n\nimport os\nfrom django.core.wsgi import get_wsgi_application\n\nos.environ.setdefault(\"DJANGO_SETTINGS_MODULE\", \"src.config.settings.base\")\n\napplication = get_wsgi_application()\n"

/-- Template for `src/config/asgi.py`. -/
def asgiPyTemplate : String :=
  "\"\"\"Configuración ASGI para el proyecto.\"\"\"\n\nimport os\nfrom django.core.asgi import get_asgi_application\n\nos.environ.setdefault(\"DJANGO_SETTINGS_MODULE\", \"src.config.settings.base\")\n\napplication = get_asgi_application()\n"

/-- `FILES` from the source: the fixed mapping from relative file path to
template text, in the source's (insertion) order. -/
def FILES : List (FPath × String) :=
  [ (["README.md"], readmeTemplate),
    (["manage.py"], managePyTemplate),
    (["pyproject.toml"], pyprojectTemplate),
    (["src", "__init__.py"], "\n"),
    (["src", "config", "__init__.py"], "\n"),
    (["src", "config", "settings", "__init__.py"], "\n"),
    (["src", "config", "settings", "base.py"], basePyTemplate),
    (["src", "config", "urls.py"], urlsPyTemplate),
    (["src", "config", "wsgi.py"], wsgiPyTemplate),
    (["src", "config", "asgi.py"], asgiPyTemplate),
    (["src", "apps", "__init__.py"], "\n"),
    (["src", "core", "__init__.py"], "\n"),
    (["src", "core", "application", "__init__.py"], "\n"),
    (["src", "core", "domain", "__init__.py"], "\n"),
    (["src", "core", "infrastructure", "__init__.py"], "\n"),
    (["src", "core", "presentation", "__init__.py"], "\n"),
    (["tests", "__init__.py"], "\n") ]

/-- `pat` is a prefix of the second list (character-exact). -/
def isPrefixL : List Char → List Char → Bool
  | [], _ => true
  | _ :: _, [] => false
  | a :: as, b :: bs => if a = b then isPrefixL as bs else false

/-- Worker for Python's `str.replace`: scans left to right; at skip
count `0` it checks for the pattern at the current position and, on a
match, emits the replacement and skips past the matched characters;
matches are non-overlapping and leftmost-first, as in Python. -/
def replaceAux (pat repl : List Char) : Nat → List Char → List Char
  | _, [] => []
  | k + 1, _ :: rest => replaceAux pat repl k rest
  | 0, c :: rest =>
    if !pat.isEmpty && isPrefixL pat (c :: rest) then
      repl ++ replaceAux pat repl (pat.length - 1) rest
    else
      c :: replaceAux pat repl 0 rest

/-- Embedding of Python's `s.replace(pat, repl)`. -/
def pyReplace (s pat repl : String) : String :=
  ⟨replaceAux pat.data repl.data 0 s.data⟩

/-- The content written for a template: the source's
`content.replace("...", project_name)` with the placeholder token. -/
def render (template project_name : String) : String :=
  pyReplace template placeholder project_name

/-- The second loop of `create_structure`: for each `(relative_path,
content)` pair, `target_file.parent.mkdir(parents=True, exist_ok=True)`
followed by `target_file.write_text(...)`. -/
def processFiles (dest : FPath) (project_name : String) :
    FS → List (FPath × String) → Except FsError FS
  | fs, [] => .ok fs
  | fs, (rel, content) :: rest =>
    match mkdirP fs (dest ++ rel.dropLast) with
    | .error e => .error e
    | .ok fs1 =>
      match write_text fs1 (dest ++ rel) (render content project_name) with
      | .error e => .error e
      | .ok fs2 => processFiles dest project_name fs2 rest

/-- The first loop of `create_structure`: create each directory of
`DIRECTORIES` under the destination. -/
def processDirs (dest : FPath) : FS → List FPath → Except FsError FS
  | fs, [] => .ok fs
  | fs, d :: rest =>
    match mkdirP fs (dest ++ d) with
    | .error e => .error e
    | .ok fs1 => processDirs dest fs1 rest

/-- Embedding of `create_structure(destination, project_name)`: create
the destination, then every directory of `DIRECTORIES`, then write every
file of `FILES` with the placeholder substituted. -/
def create_structure (fs : FS) (destination : FPath) (project_name : String) :
    Except FsError FS :=
  match mkdirP fs destination with
  | .error e => .error e
  | .ok fs1 =>
    match processDirs destination fs1 DIRECTORIES with
    | .error e => .error e
    | .ok fs2 => processFiles destination project_name fs2 FILES

/-- The state inside an `ok` result (junk default on `error`). -/
def okState : Except FsError FS → FS
  | .ok fs => fs
  | .error _ => ⟨[], []⟩

/-- `isOkE r` holds when `r` is a success. -/
def isOkE {ε α : Type} : Except ε α → Bool
  | .ok _ => true
  | .error _ => false

/-- `pat` occurs as a contiguous substring of the second list. -/
def occursIn (pat : List Char) : List Char → Bool
  | [] => isPrefixL pat []
  | c :: rest => if isPrefixL pat (c :: rest) then true else occursIn pat rest

theorem memP_append (a b : List FPath) (q : FPath) :
    memP (a ++ b) q = (memP a q || memP b q) := by
  induction a with
  | nil => simp [memP]
  | cons p rest ih => by_cases h : q = p <;> simp [memP, h, ih]

theorem memP_iff_mem (l : List FPath) (q : FPath) : memP l q = true ↔ q ∈ l := by
  induction l with
  | nil => simp [memP]
  | cons p rest ih => by_cases h : q = p <;> simp [memP, h, ih]

theorem prefixesNE_append (a b : FPath) :
    prefixesNE (a ++ b) = prefixesNE a ++ (prefixesNE b).map (fun q => a ++ q) := by
  induction a with
  | nil => simp [prefixesNE]
  | cons x a' ih =>
    show prefixesNE (x :: (a' ++ b)) = _
    rw [prefixesNE, ih, List.map_append, List.map_map, prefixesNE]
    rfl

theorem mem_prefixesNE_self (p : FPath) (hp : p ≠ []) : p ∈ prefixesNE p := by
  induction p with
  | nil => exact absurd rfl hp
  | cons a rest ih =>
    cases rest with
    | nil => simp [prefixesNE]
    | cons b r =>
      exact List.mem_cons.mpr
        (Or.inr (List.mem_map.mpr ⟨b :: r, ih (by simp), rfl⟩))

theorem length_le_of_mem_prefixesNE {q p : FPath} (h : q ∈ prefixesNE p) :
    q.length ≤ p.length := by
  induction p generalizing q with
  | nil => simp [prefixesNE] at h
  | cons a rest ih =>
    simp only [prefixesNE, List.mem_cons, List.mem_map] at h
    rcases h with h | ⟨q', hq', rfl⟩
    · subst h; simp
    · simpa using ih hq'

theorem mkdirP_ok_elim {fs : FS} {p : FPath} {fs' : FS}
    (h : mkdirP fs p = .ok fs') :
    (prefixesNE p).any (fun q => isFile fs q) = false ∧
      fs' = ⟨prefixesNE p ++ fs.dirs, fs.files⟩ := by
  unfold mkdirP at h
  cases hc : (prefixesNE p).any (fun q => isFile fs q) with
  | true => simp [hc] at h
  | false =>
    simp only [hc, Bool.false_eq_true, if_false, Except.ok.injEq] at h
    exact ⟨rfl, h.symm⟩

theorem mkdirP_ok_of {fs : FS} {p : FPath}
    (hc : (prefixesNE p).any (fun q => isFile fs q) = false) :
    mkdirP fs p = .ok ⟨prefixesNE p ++ fs.dirs, fs.files⟩ := by
  unfold mkdirP
  simp [hc]

theorem write_text_ok_elim {fs : FS} {p : FPath} {c : String} {fs' : FS}
    (h : write_text fs p c = .ok fs') :
    isDir fs p = false ∧ isDir fs p.dropLast = true ∧
      fs' = ⟨fs.dirs, (p, c) :: fs.files⟩ := by
  unfold write_text at h
  cases hd : isDir fs p with
  | true => simp [hd] at h
  | false =>
    cases hpar : isDir fs p.dropLast with
    | false => simp [hd, hpar] at h
    | true =>
      simp only [hd, hpar, Bool.false_eq_true, if_false, Bool.not_true,
        Except.ok.injEq] at h
      exact ⟨rfl, rfl, h.symm⟩

theorem write_text_ok_of {fs : FS} {p : FPath} {c : String}
    (hd : isDir fs p = false) (hpar : isDir fs p.dropLast = true) :
    write_text fs p c = .ok ⟨fs.dirs, (p, c) :: fs.files⟩ := by
  unfold write_text
  simp [hd, hpar]

theorem isDir_prepend (a d : List FPath) (f : List (FPath × String)) (q : FPath) :
    isDir ⟨a ++ d, f⟩ q = (memP a q || isDir ⟨d, f⟩ q) := by
  simp only [isDir, memP_append]
  cases q.isEmpty <;> cases memP a q <;> simp

theorem mkdirP_ok_isDir {fs : FS} {p : FPath} {fs' : FS}
    (h : mkdirP fs p = .ok fs') : isDir fs' p = true := by
  obtain ⟨-, rfl⟩ := mkdirP_ok_elim h
  cases hp : p.isEmpty with
  | true => simp [isDir, hp]
  | false =>
    have hne : p ≠ [] := by
      cases p <;> simp_all
    have : p ∈ prefixesNE p ++ fs.dirs :=
      List.mem_append.mpr (Or.inl (mem_prefixesNE_self p hne))
    simp [isDir, (memP_iff_mem _ _).mpr this]

/-- Paths of the directories (with all their ancestors) created by the
`DIRECTORIES` loop under `dest`. -/
def dirPrefixes (dest : FPath) : List FPath → List FPath
  | [] => []
  | d :: rest => prefixesNE (dest ++ d) ++ dirPrefixes dest rest

/-- Paths of the parent directories (with all their ancestors) created
by the `FILES` loop under `dest`. -/
def parentPrefixes (dest : FPath) : List (FPath × String) → List FPath
  | [] => []
  | (rel, _) :: rest => prefixesNE (dest ++ rel.dropLast) ++ parentPrefixes dest rest

/-- The template bound to absolute path `q` by the file table, if any. -/
def templateFor (dest q : FPath) : List (FPath × String) → Option String
  | [] => none
  | (rel, content) :: rest =>
    if q = dest ++ rel then some content else templateFor dest q rest

/-- `q` is one of the absolute file paths written by the table. -/
def keyMemP (dest : FPath) (L : List (FPath × String)) (q : FPath) : Bool :=
  L.any (fun e => decide (q = dest ++ e.1))

/-- `t` is one of the relative file paths of `FILES`. -/
def keyMemF (t : FPath) : Bool :=
  FILES.any (fun e => decide (e.1 = t))

/-- The relative keys of the file table are pairwise distinct. -/
def keysDistinct : List (FPath × String) → Bool
  | [] => true
  | (rel, _) :: rest =>
    !(rest.any (fun e => decide (e.1 = rel))) && keysDistinct rest

theorem templateFor_none {dest : FPath} {q : FPath} :
    ∀ {L : List (FPath × String)}, keyMemP dest L q = false →
      templateFor dest q L = none := by
  intro L
  induction L with
  | nil => intro _; rfl
  | cons e rest ih =>
    intro h
    simp only [keyMemP, List.any_cons, Bool.or_eq_false_iff,
      decide_eq_false_iff_not] at h
    simpa [templateFor, h.1] using ih (by simp [keyMemP, h.2])

theorem templateFor_some_keyMemP {dest : FPath} {q : FPath} {t : String} :
    ∀ {L : List (FPath × String)}, templateFor dest q L = some t →
      keyMemP dest L q = true := by
  intro L
  induction L with
  | nil => intro h; simp [templateFor] at h
  | cons e rest ih =>
    intro h
    by_cases hq : q = dest ++ e.1
    · simp [keyMemP, hq]
    · simp only [templateFor, hq, if_false] at h
      simpa [keyMemP, List.any_cons] using Or.inr (by simpa [keyMemP] using ih h)

theorem processDirs_ok_elim {dest : FPath} :
    ∀ {L : List FPath} {fs fs' : FS}, processDirs dest fs L = .ok fs' →
      fs'.files = fs.files ∧
      (∀ q, isDir fs' q = (memP (dirPrefixes dest L) q || isDir fs q)) ∧
      (∀ q, memP (dirPrefixes dest L) q = true → isFile fs q = false) := by
  intro L
  induction L with
  | nil =>
    intro fs fs' h
    simp only [processDirs, Except.ok.injEq] at h
    subst h
    simp [dirPrefixes, memP]
  | cons d rest ih =>
    intro fs fs' h
    simp only [processDirs] at h
    cases hm : mkdirP fs (dest ++ d) with
    | error e => rw [hm] at h; cases h
    | ok fs1 =>
      rw [hm] at h
      obtain ⟨hc1, rfl⟩ := mkdirP_ok_elim hm
      obtain ⟨hfiles, hdirs, hcond⟩ := ih h
      refine ⟨hfiles, ?_, ?_⟩
      · intro q
        rw [hdirs q, isDir_prepend]
        simp only [dirPrefixes, memP_append]
        cases memP (prefixesNE (dest ++ d)) q <;>
          cases memP (dirPrefixes dest rest) q <;> simp
      · intro q hq
        simp only [dirPrefixes, memP_append, Bool.or_eq_true] at hq
        rcases hq with hq | hq
        · have hmem := (memP_iff_mem _ _).mp hq
          have := List.any_eq_false.mp (by simpa using hc1) q hmem
          simpa using this
        · have := hcond q hq
          simpa [isFile, lookupFile] using this

theorem isDir_false_of_prepend {a d : List FPath} {f : List (FPath × String)}
    {q : FPath} (h : isDir ⟨a ++ d, f⟩ q = false) : isDir ⟨d, f⟩ q = false := by
  rw [isDir_prepend] at h
  exact (Bool.or_eq_false_iff.mp h).2

theorem processFiles_ok_elim {dest : FPath} {name : String} :
    ∀ {L : List (FPath × String)} {fs fs' : FS},
      processFiles dest name fs L = .ok fs' →
      (∀ q, isDir fs' q = (memP (parentPrefixes dest L) q || isDir fs q)) ∧
      (keysDistinct L = true → ∀ q, lookupFile fs' q =
        (templateFor dest q L).elim (lookupFile fs q) (fun t => some (render t name))) ∧
      (∀ q, memP (parentPrefixes dest L) q = true → isFile fs q = false) ∧
      (∀ e ∈ L, isDir fs (dest ++ e.1) = false) := by
  intro L
  induction L with
  | nil =>
    intro fs fs' h
    simp only [processFiles, Except.ok.injEq] at h
    subst h
    simp [parentPrefixes, memP, templateFor]
  | cons e rest ih =>
    intro fs fs' h
    obtain ⟨rel, content⟩ := e
    simp only [processFiles] at h
    split at h
    · cases h
    · rename_i fs1 hm
      split at h
      · cases h
      · rename_i fs2 hw
        obtain ⟨hc1, hfs1⟩ := mkdirP_ok_elim hm
        obtain ⟨htd, -, hfs2⟩ := write_text_ok_elim hw
        obtain ⟨ihdir, ihlook, ihcond, ihtarget⟩ := ih h
        subst hfs1
        subst hfs2
        refine ⟨?_, ?_, ?_, ?_⟩
        · intro q
          rw [ihdir q]
          simp only [parentPrefixes, memP_append]
          have h1 : isDir (⟨(⟨prefixesNE (dest ++ rel.dropLast) ++ fs.dirs,
              fs.files⟩ : FS).dirs,
              (dest ++ rel, render content name) :: fs.files⟩ : FS) q
              = (memP (prefixesNE (dest ++ rel.dropLast)) q || isDir fs q) := by
            rw [show ((⟨prefixesNE (dest ++ rel.dropLast) ++ fs.dirs,
              fs.files⟩ : FS)).dirs = prefixesNE (dest ++ rel.dropLast) ++ fs.dirs
              from rfl]
            rw [isDir_prepend]
            simp [isDir]
          rw [h1]
          cases memP (prefixesNE (dest ++ rel.dropLast)) q <;>
            cases memP (parentPrefixes dest rest) q <;> simp
        · intro hk q
          simp only [keysDistinct, Bool.and_eq_true, Bool.not_eq_true'] at hk
          obtain ⟨hk1, hk2⟩ := hk
          by_cases hq : q = dest ++ rel
          · subst hq
            have htf : templateFor dest (dest ++ rel) rest = none := by
              apply templateFor_none
              simp only [keyMemP, List.any_eq_false]
              intro x hx hcontra
              have hxx : dest ++ rel = dest ++ x.1 := of_decide_eq_true hcontra
              have hx1 : x.1 = rel := (List.append_cancel_left hxx).symm
              have := List.any_eq_false.mp hk1 x hx
              simp [hx1] at this
            rw [ihlook hk2 _, htf]
            simp only [templateFor, if_pos rfl, Option.elim]
            simp [lookupFile, lookupA]
          · have hrw : templateFor dest q ((rel, content) :: rest)
                = templateFor dest q rest := by
              simp [templateFor, hq]
            rw [hrw, ihlook hk2 q]
            cases htf : templateFor dest q rest with
            | some t => simp [Option.elim]
            | none =>
              simp only [Option.elim]
              simp [lookupFile, lookupA, hq]
        · intro q hq
          simp only [parentPrefixes, memP_append, Bool.or_eq_true] at hq
          rcases hq with hq | hq
          · have hmem := (memP_iff_mem _ _).mp hq
            have := List.any_eq_false.mp (by simpa using hc1) q hmem
            simpa using this
          · have := ihcond q hq
            simp only [isFile, lookupFile, lookupA] at this ⊢
            by_cases hqk : q = dest ++ rel
            · simp [hqk] at this
            · simpa [hqk] using this
        · intro e' he'
          rcases List.mem_cons.mp he' with he' | he'
          · subst he'
            exact isDir_false_of_prepend htd
          · exact isDir_false_of_prepend (ihtarget e' he')

theorem dropLast_append_of_right_ne_nil (a : FPath) {b : FPath} (hb : b ≠ []) :
    (a ++ b).dropLast = a ++ b.dropLast := by
  induction a with
  | nil => rfl
  | cons x a' ih =>
    have hne : a' ++ b ≠ [] := by
      intro hcontra
      exact hb (List.append_eq_nil.mp hcontra).2
    calc (x :: (a' ++ b)).dropLast = x :: (a' ++ b).dropLast := by
          rw [List.dropLast_cons_of_ne_nil hne]
      _ = x :: (a' ++ b.dropLast) := by rw [ih]
      _ = (x :: a') ++ b.dropLast := rfl

theorem ok_of_isOkE {x : Except FsError FS} (h : isOkE x = true) :
    x = .ok (okState x) := by
  cases x with
  | ok fs => rfl
  | error e => simp [isOkE] at h

theorem processDirs_ok_of {dest : FPath} :
    ∀ {L : List FPath} {fs : FS},
      (∀ q, memP (dirPrefixes dest L) q = true → isFile fs q = false) →
      isOkE (processDirs dest fs L) = true := by
  intro L
  induction L with
  | nil => intro fs _; rfl
  | cons d rest ih =>
    intro fs h
    have hc : (prefixesNE (dest ++ d)).any (fun q => isFile fs q) = false := by
      apply List.any_eq_false.mpr
      intro q hq
      have hmem : memP (dirPrefixes dest (d :: rest)) q = true := by
        simp only [dirPrefixes, memP_append, Bool.or_eq_true]
        exact Or.inl ((memP_iff_mem _ _).mpr hq)
      simp [h q hmem]
    have hm := mkdirP_ok_of hc
    simp only [processDirs, hm]
    apply ih
    intro q hq
    have hmem : memP (dirPrefixes dest (d :: rest)) q = true := by
      simp only [dirPrefixes, memP_append, Bool.or_eq_true]
      exact Or.inr hq
    simpa [isFile, lookupFile] using h q hmem

theorem processFiles_ok_of {dest : FPath} {name : String} :
    ∀ {L : List (FPath × String)} {fs : FS},
      (∀ q, memP (parentPrefixes dest L) q = true →
        isFile fs q = false ∧ keyMemP dest L q = false) →
      (∀ e ∈ L, e.1 ≠ [] ∧ isDir fs (dest ++ e.1) = false ∧
        memP (parentPrefixes dest L) (dest ++ e.1) = false) →
      isOkE (processFiles dest name fs L) = true := by
  intro L
  induction L with
  | nil => intro fs _ _; rfl
  | cons e rest ih =>
    intro fs hpar htar
    obtain ⟨rel, content⟩ := e
    have hc : (prefixesNE (dest ++ rel.dropLast)).any (fun q => isFile fs q) = false := by
      apply List.any_eq_false.mpr
      intro q hq
      have hmem : memP (parentPrefixes dest ((rel, content) :: rest)) q = true := by
        simp only [parentPrefixes, memP_append, Bool.or_eq_true]
        exact Or.inl ((memP_iff_mem _ _).mpr hq)
      simp [(hpar q hmem).1]
    have hm := mkdirP_ok_of hc
    obtain ⟨hne, hdt0, hmemt⟩ := htar _ (List.mem_cons_self _ _)
    have hmemt1 : memP (prefixesNE (dest ++ rel.dropLast)) (dest ++ rel) = false ∧
        memP (parentPrefixes dest rest) (dest ++ rel) = false := by
      have := hmemt
      simp only [parentPrefixes, memP_append, Bool.or_eq_false_iff] at this
      exact this
    have hdt : isDir ⟨prefixesNE (dest ++ rel.dropLast) ++ fs.dirs, fs.files⟩
        (dest ++ rel) = false := by
      rw [isDir_prepend]
      simp [hmemt1.1, hdt0]
    have hpd : isDir ⟨prefixesNE (dest ++ rel.dropLast) ++ fs.dirs, fs.files⟩
        (dest ++ rel).dropLast = true := by
      rw [dropLast_append_of_right_ne_nil dest hne]
      exact mkdirP_ok_isDir hm
    have hw := @write_text_ok_of _ _ (render content name) hdt hpd
    simp only [processFiles, hm, hw]
    apply ih
    · intro q hq
      have hmem : memP (parentPrefixes dest ((rel, content) :: rest)) q = true := by
        simp only [parentPrefixes, memP_append, Bool.or_eq_true]
        exact Or.inr hq
      obtain ⟨hf, hk⟩ := hpar q hmem
      have hk' : decide (q = dest ++ rel) = false ∧ keyMemP dest rest q = false := by
        have := hk
        simp only [keyMemP, List.any_cons, Bool.or_eq_false_iff] at this
        exact ⟨this.1, this.2⟩
      constructor
      · have hqne : q ≠ dest ++ rel := of_decide_eq_false hk'.1
        simp only [isFile, lookupFile, lookupA] at hf ⊢
        simpa [hqne] using hf
      · exact hk'.2
    · intro e' he'
      obtain ⟨hne', hd', hm'⟩ := htar e' (List.mem_cons_of_mem _ he')
      have hm'' : memP (prefixesNE (dest ++ rel.dropLast)) (dest ++ e'.1) = false ∧
          memP (parentPrefixes dest rest) (dest ++ e'.1) = false := by
        have := hm'
        simp only [parentPrefixes, memP_append, Bool.or_eq_false_iff] at this
        exact this
      refine ⟨hne', ?_, hm''.2⟩
      rw [show ((⟨(⟨prefixesNE (dest ++ rel.dropLast) ++ fs.dirs, fs.files⟩ : FS).dirs,
        (dest ++ rel, render content name) :: fs.files⟩ : FS)) =
        (⟨prefixesNE (dest ++ rel.dropLast) ++ fs.dirs,
          (dest ++ rel, render content name) :: fs.files⟩ : FS) from rfl]
      rw [isDir_prepend]
      have : isDir (⟨fs.dirs, (dest ++ rel, render content name) :: fs.files⟩ : FS)
          (dest ++ e'.1) = isDir fs (dest ++ e'.1) := by
        simp [isDir]
      rw [this]
      simp [hm''.1, hd']

/-- All directory paths `create_structure` passes to `mkdir`, with their
ancestors: the destination itself, the `DIRECTORIES` entries, and the
parent of every `FILES` entry. -/
def allMkdirPrefixes (dest : FPath) : List FPath :=
  prefixesNE dest ++ dirPrefixes dest DIRECTORIES ++ parentPrefixes dest FILES

/-- The genuine failure conditions of a scaffold run: some directory to
be created collides with an existing regular file, or some file to be
written collides with an existing directory.  Pre-existing directories
and pre-existing files at the written paths are *not* mentioned: they
never cause a failure. -/
def scaffoldOk (fs : FS) (dest : FPath) : Bool :=
  (allMkdirPrefixes dest).all (fun q => !(isFile fs q)) &&
    FILES.all (fun e => !(isDir fs (dest ++ e.1)))

theorem keysDistinct_FILES : keysDistinct FILES = true := by decide

theorem keys_ne_nil_FILES : FILES.all (fun e => !(decide (e.1 = []))) = true := by decide

theorem dir_prefixes_not_keys :
    DIRECTORIES.all (fun d => (prefixesNE d).all (fun t => !(keyMemF t))) = true := by
  decide

theorem par_prefixes_not_keys :
    FILES.all (fun e => (prefixesNE e.1.dropLast).all (fun t => !(keyMemF t))) = true := by
  decide

theorem keyMemF_ne_nil {t : FPath} (h : keyMemF t = true) : t ≠ [] := by
  simp only [keyMemF, List.any_eq_true] at h
  obtain ⟨e, he, hde⟩ := h
  have het : e.1 = t := of_decide_eq_true hde
  have := List.all_eq_true.mp keys_ne_nil_FILES e he
  subst het
  simpa using this

theorem mem_dirPrefixes {dest : FPath} {q : FPath} :
    ∀ {L : List FPath}, q ∈ dirPrefixes dest L →
      q ∈ prefixesNE dest ∨ ∃ d ∈ L, ∃ t ∈ prefixesNE d, q = dest ++ t := by
  intro L
  induction L with
  | nil => intro h; simp [dirPrefixes] at h
  | cons d rest ih =>
    intro h
    rcases List.mem_append.mp h with h | h
    · rw [prefixesNE_append] at h
      rcases List.mem_append.mp h with h | h
      · exact Or.inl h
      · obtain ⟨t, ht, rfl⟩ := List.mem_map.mp h
        exact Or.inr ⟨d, List.mem_cons_self _ _, t, ht, rfl⟩
    · rcases ih h with h | ⟨d', hd', t, ht, rfl⟩
      · exact Or.inl h
      · exact Or.inr ⟨d', List.mem_cons_of_mem _ hd', t, ht, rfl⟩

theorem mem_parentPrefixes {dest : FPath} {q : FPath} :
    ∀ {L : List (FPath × String)}, q ∈ parentPrefixes dest L →
      q ∈ prefixesNE dest ∨
        ∃ e ∈ L, ∃ t ∈ prefixesNE e.1.dropLast, q = dest ++ t := by
  intro L
  induction L with
  | nil => intro h; simp [parentPrefixes] at h
  | cons e rest ih =>
    intro h
    obtain ⟨rel, content⟩ := e
    rcases List.mem_append.mp h with h | h
    · rw [prefixesNE_append] at h
      rcases List.mem_append.mp h with h | h
      · exact Or.inl h
      · obtain ⟨t, ht, rfl⟩ := List.mem_map.mp h
        exact Or.inr ⟨(rel, content), List.mem_cons_self _ _, t, ht, rfl⟩
    · rcases ih h with h | ⟨e', he', t, ht, rfl⟩
      · exact Or.inl h
      · exact Or.inr ⟨e', List.mem_cons_of_mem _ he', t, ht, rfl⟩

/-- Core disjointness: no file path written by `FILES` is ever one of
the directory paths created by the run (for any destination). -/
theorem mkdirPrefixes_not_written {dest rel : FPath} (hrel : keyMemF rel = true) :
    memP (allMkdirPrefixes dest) (dest ++ rel) = false := by
  cases hmem : memP (allMkdirPrefixes dest) (dest ++ rel) with
  | false => rfl
  | true =>
    exfalso
    have hne : rel ≠ [] := keyMemF_ne_nil hrel
    have hm := (memP_iff_mem _ _).mp hmem
    have hlen : dest.length < (dest ++ rel).length := by
      have : 0 < rel.length := List.length_pos.mpr hne
      simp only [List.length_append]
      omega
    have hkey : ∀ t : FPath, dest ++ rel = dest ++ t → keyMemF t = false → False := by
      intro t heq hf
      have : rel = t := List.append_cancel_left heq
      rw [this] at hrel
      rw [hrel] at hf
      cases hf
    simp only [allMkdirPrefixes, List.append_assoc, List.mem_append] at hm
    rcases hm with hm | hm | hm
    · have := length_le_of_mem_prefixesNE hm
      omega
    · rcases mem_dirPrefixes hm with hm' | ⟨d, hd, t, ht, heq⟩
      · have := length_le_of_mem_prefixesNE hm'
        omega
      · apply hkey t heq
        have h1 := List.all_eq_true.mp dir_prefixes_not_keys d hd
        have h2 : ∀ x ∈ prefixesNE d, keyMemF x = false := by simpa using h1
        exact h2 t ht
    · rcases mem_parentPrefixes hm with hm' | ⟨e, he, t, ht, heq⟩
      · have := length_le_of_mem_prefixesNE hm'
        omega
      · apply hkey t heq
        have h1 := List.all_eq_true.mp par_prefixes_not_keys e he
        have h2 : ∀ x ∈ prefixesNE e.1.dropLast, keyMemF x = false := by
          simpa using h1
        exact h2 t ht

theorem isFile_congr_files {fs1 fs2 : FS} (h : fs1.files = fs2.files) (q : FPath) :
    isFile fs1 q = isFile fs2 q := by
  simp [isFile, lookupFile, h]

theorem lookupFile_congr_files {fs1 fs2 : FS} (h : fs1.files = fs2.files) (q : FPath) :
    lookupFile fs1 q = lookupFile fs2 q := by
  simp [lookupFile, h]

theorem keyMemP_true_elim {dest : FPath} {L : List (FPath × String)} {q : FPath}
    (h : keyMemP dest L q = true) : ∃ e ∈ L, q = dest ++ e.1 := by
  simp only [keyMemP, List.any_eq_true] at h
  obtain ⟨e, he, hde⟩ := h
  exact ⟨e, he, of_decide_eq_true hde⟩

theorem keyMemF_of_mem {e : FPath × String} (he : e ∈ FILES) : keyMemF e.1 = true := by
  simp only [keyMemF, List.any_eq_true]
  exact ⟨e, he, by simp⟩

/-- Characterization of a successful scaffold run: the new directory set
is exactly the created prefixes plus the old ones; the new file map is
the rendered templates at the written paths and the old contents
elsewhere; and the initial state satisfied `scaffoldOk`. -/
theorem create_structure_ok_elim {fs : FS} {dest : FPath} {name : String} {fs' : FS}
    (h : create_structure fs dest name = .ok fs') :
    (∀ q, isDir fs' q = (memP (allMkdirPrefixes dest) q || isDir fs q)) ∧
    (∀ q, lookupFile fs' q = (templateFor dest q FILES).elim (lookupFile fs q)
      (fun t => some (render t name))) ∧
    scaffoldOk fs dest = true := by
  simp only [create_structure] at h
  split at h
  · cases h
  · rename_i fs1 hm
    split at h
    · cases h
    · rename_i fs2 hd
      obtain ⟨hc0, hfs1⟩ := mkdirP_ok_elim hm
      obtain ⟨hfiles2, hdirs2, hcond2⟩ := processDirs_ok_elim hd
      obtain ⟨hdir3, hlook3, hcond3, htar3⟩ := processFiles_ok_elim h
      subst hfs1
      have hfiles2' : fs2.files = fs.files := hfiles2
      have hdirs1 : ∀ q, isDir (⟨prefixesNE dest ++ fs.dirs, fs.files⟩ : FS) q
          = (memP (prefixesNE dest) q || isDir fs q) := by
        intro q
        rw [isDir_prepend]
      refine ⟨?_, ?_, ?_⟩
      · intro q
        rw [hdir3 q, hdirs2 q, hdirs1 q]
        simp only [allMkdirPrefixes, memP_append]
        cases memP (prefixesNE dest) q <;>
          cases memP (dirPrefixes dest DIRECTORIES) q <;>
          cases memP (parentPrefixes dest FILES) q <;> simp
      · intro q
        rw [hlook3 keysDistinct_FILES q,
          lookupFile_congr_files hfiles2' q]
      · simp only [scaffoldOk, Bool.and_eq_true]
        constructor
        · apply List.all_eq_true.mpr
          intro q hq
          simp only [Bool.not_eq_true']
          simp only [allMkdirPrefixes, List.append_assoc, List.mem_append] at hq
          rcases hq with hq | hq | hq
          · have := List.any_eq_false.mp (by simpa using hc0) q hq
            simpa using this
          · have := hcond2 q ((memP_iff_mem _ _).mpr hq)
            simpa [isFile, lookupFile] using this
          · have := hcond3 q ((memP_iff_mem _ _).mpr hq)
            rw [isFile_congr_files hfiles2' q] at this
            exact this
        · apply List.all_eq_true.mpr
          intro e he
          simp only [Bool.not_eq_true']
          have h3 := htar3 e he
          rw [hdirs2 _, hdirs1 _] at h3
          rcases Bool.or_eq_false_iff.mp h3 with ⟨-, h3⟩
          rcases Bool.or_eq_false_iff.mp h3 with ⟨-, h3⟩
          exact h3

theorem create_structure_ok_of {fs : FS} {dest : FPath} {name : String}
    (h : scaffoldOk fs dest = true) :
    isOkE (create_structure fs dest name) = true := by
  simp only [scaffoldOk, Bool.and_eq_true] at h
  have hAq : ∀ q, memP (allMkdirPrefixes dest) q = true → isFile fs q = false := by
    intro q hq
    have := List.all_eq_true.mp h.1 q ((memP_iff_mem _ _).mp hq)
    simpa using this
  have hBq : ∀ e ∈ FILES, isDir fs (dest ++ e.1) = false := by
    intro e he
    have := List.all_eq_true.mp h.2 e he
    simpa using this
  have hsplit : ∀ {rel : FPath}, keyMemF rel = true →
      memP (prefixesNE dest) (dest ++ rel) = false ∧
      memP (dirPrefixes dest DIRECTORIES) (dest ++ rel) = false ∧
      memP (parentPrefixes dest FILES) (dest ++ rel) = false := by
    intro rel hrel
    have := @mkdirPrefixes_not_written dest rel hrel
    simp only [allMkdirPrefixes, memP_append, Bool.or_eq_false_iff] at this
    exact ⟨this.1.1, this.1.2, this.2⟩
  have hc0 : (prefixesNE dest).any (fun q => isFile fs q) = false := by
    apply List.any_eq_false.mpr
    intro q hq
    have hmem : memP (allMkdirPrefixes dest) q = true :=
      (memP_iff_mem _ _).mpr (by
        simp only [allMkdirPrefixes, List.mem_append]
        exact Or.inl (Or.inl hq))
    simp [hAq q hmem]
  have hm := mkdirP_ok_of hc0
  have hstep2 : isOkE
      (processDirs dest ⟨prefixesNE dest ++ fs.dirs, fs.files⟩ DIRECTORIES) = true := by
    apply processDirs_ok_of
    intro q hq
    have hmem : memP (allMkdirPrefixes dest) q = true :=
      (memP_iff_mem _ _).mpr (by
        simp only [allMkdirPrefixes, List.mem_append]
        exact Or.inl (Or.inr ((memP_iff_mem _ _).mp hq)))
    have := hAq q hmem
    simpa [isFile, lookupFile] using this
  have hd := ok_of_isOkE hstep2
  obtain ⟨hfiles2, hdirs2, -⟩ := processDirs_ok_elim hd
  have hdirs1 : ∀ q, isDir (⟨prefixesNE dest ++ fs.dirs, fs.files⟩ : FS) q
      = (memP (prefixesNE dest) q || isDir fs q) := by
    intro q
    rw [isDir_prepend]
  have hstep3 : isOkE (processFiles dest name
      (okState (processDirs dest ⟨prefixesNE dest ++ fs.dirs, fs.files⟩ DIRECTORIES))
      FILES) = true := by
    apply processFiles_ok_of
    · intro q hq
      have hmem : memP (allMkdirPrefixes dest) q = true :=
        (memP_iff_mem _ _).mpr (by
          simp only [allMkdirPrefixes, List.mem_append]
          exact Or.inr ((memP_iff_mem _ _).mp hq))
      constructor
      · rw [isFile_congr_files hfiles2 q]
        have : isFile (⟨prefixesNE dest ++ fs.dirs, fs.files⟩ : FS) q = isFile fs q := by
          simp [isFile, lookupFile]
        rw [this]
        exact hAq q hmem
      · cases hk : keyMemP dest FILES q with
        | false => rfl
        | true =>
          exfalso
          obtain ⟨e, he, rfl⟩ := keyMemP_true_elim hk
          have := @mkdirPrefixes_not_written dest e.1 (keyMemF_of_mem he)
          rw [this] at hmem
          cases hmem
    · intro e he
      have hkf := keyMemF_of_mem he
      obtain ⟨hs1, hs2, hs3⟩ := hsplit hkf
      refine ⟨keyMemF_ne_nil hkf, ?_, hs3⟩
      rw [hdirs2 _, hdirs1 _]
      simp [hs1, hs2, hBq e he]
  simp only [create_structure, hm]
  rw [hd]
  exact hstep3

/-- Success of a scaffold run is exactly `scaffoldOk`: the run fails
only on a genuine collision, never merely because directories (or the
destination, or the written files) already exist. -/
theorem create_structure_isOkE {fs : FS} {dest : FPath} {name : String} :
    isOkE (create_structure fs dest name) = scaffoldOk fs dest := by
  cases hs : scaffoldOk fs dest with
  | true => exact create_structure_ok_of hs
  | false =>
    cases hok : isOkE (create_structure fs dest name) with
    | false => rfl
    | true =>
      exfalso
      have heq := ok_of_isOkE hok
      obtain ⟨-, -, hsc⟩ := create_structure_ok_elim heq
      rw [hs] at hsc
      cases hsc

theorem isPrefixL_append_self : ∀ (l s : List Char), isPrefixL l (l ++ s) = true := by
  intro l
  induction l with
  | nil => intro s; rfl
  | cons a as ih => intro s; simp [isPrefixL, ih]

theorem replaceAux_skip (pat repl : List Char) :
    ∀ (l rest : List Char), replaceAux pat repl l.length (l ++ rest)
      = replaceAux pat repl 0 rest := by
  intro l
  induction l with
  | nil => intro rest; rfl
  | cons x l' ih => intro rest; simpa [replaceAux] using ih rest

theorem replaceAux_match {pat : List Char} (repl s : List Char) (hp : pat ≠ []) :
    replaceAux pat repl 0 (pat ++ s) = repl ++ replaceAux pat repl 0 s := by
  cases pat with
  | nil => exact absurd rfl hp
  | cons p0 pt =>
    show replaceAux (p0 :: pt) repl 0 (p0 :: (pt ++ s)) = _
    rw [replaceAux]
    have hpre : isPrefixL (p0 :: pt) (p0 :: (pt ++ s)) = true :=
      isPrefixL_append_self (p0 :: pt) s
    simp only [hpre, List.isEmpty, Bool.not_false, Bool.and_true, if_true,
      List.length_cons, Nat.succ_sub_one]
    rw [replaceAux_skip (p0 :: pt) repl pt s]

theorem replaceAux_pre {p0 : Char} {pt : List Char} (repl : List Char) :
    ∀ (pre s : List Char), (∀ c ∈ pre, c ≠ p0) →
      replaceAux (p0 :: pt) repl 0 (pre ++ s)
        = pre ++ replaceAux (p0 :: pt) repl 0 s := by
  intro pre
  induction pre with
  | nil => intro s _; rfl
  | cons c pre' ih =>
    intro s hc
    have hcp : ¬ (p0 = c) := fun h => hc c (List.mem_cons_self _ _) h.symm
    show replaceAux (p0 :: pt) repl 0 (c :: (pre' ++ s)) = _
    rw [replaceAux]
    simp only [isPrefixL, hcp, if_false, Bool.and_false, if_false]
    rw [ih s (fun x hx => hc x (List.mem_cons_of_mem _ hx))]
    rfl

theorem replaceAux_no_occur {pat : List Char} (repl : List Char) :
    ∀ {s : List Char}, occursIn pat s = false → replaceAux pat repl 0 s = s := by
  intro s
  induction s with
  | nil => intro _; rfl
  | cons c rest ih =>
    intro h
    have h2 : isPrefixL pat (c :: rest) = false ∧ occursIn pat rest = false := by
      by_cases hp : isPrefixL pat (c :: rest) = true
      · simp [occursIn, hp] at h
      · exact ⟨Bool.not_eq_true _ ▸ Bool.of_not_eq_true hp, by
          simpa [occursIn, Bool.not_eq_true _ ▸ Bool.of_not_eq_true hp] using h⟩
    rw [replaceAux]
    simp [h2.1, ih h2.2]

theorem occursIn_nil_pat : ∀ (s : List Char), occursIn [] s = true := by
  intro s
  cases s with
  | nil => rfl
  | cons c rest => simp [occursIn, isPrefixL]

theorem occursIn_sandwich (pat : List Char) :
    ∀ (pre post : List Char), occursIn pat (pre ++ (pat ++ post)) = true := by
  intro pre
  induction pre with
  | nil =>
    intro post
    cases pat with
    | nil => exact occursIn_nil_pat _
    | cons p0 pt =>
      have hpre : isPrefixL (p0 :: pt) (p0 :: (pt ++ post)) = true :=
        isPrefixL_append_self (p0 :: pt) post
      show occursIn (p0 :: pt) (p0 :: (pt ++ post)) = true
      rw [occursIn, hpre]
      simp
  | cons c pre' ih =>
    intro post
    show occursIn pat (c :: (pre' ++ (pat ++ post))) = true
    rw [occursIn]
    cases isPrefixL pat (c :: (pre' ++ (pat ++ post))) <;> simp [ih post]

/-- `pyprojectTemplate` up to (excluding) the placeholder. -/
def pyprojectPre : String :=
  "[build-system]\nrequires = [\"setuptools\", \"wheel\"]\nbuild-backend = \"setuptools.build_meta\"\n\n[project]\nname = \""

/-- `pyprojectTemplate` after (excluding) the placeholder. -/
def pyprojectPost : String :=
  "\"\nversion = \"0.1.0\"\ndescription = \"Plantilla base de Django con Clean Architecture\"\nreadme = \"README.md\"\nrequires-python = \">=3.10\"\nauthors = [\n    \x7b name = \"Plantilla Automática\", email = \"dev@example.com\" \x7d\n]\ndependencies = [\n    \"django>=4.2\",\n]\n"

theorem pyprojectTemplate_split :
    pyprojectTemplate.data
      = pyprojectPre.data ++ (placeholder.data ++ pyprojectPost.data) := by decide

/-- Rendering `pyproject.toml` yields exactly the prefix, the verbatim
project name, and the suffix: the placeholder occurs once and is
replaced by the supplied name with no escaping. -/
theorem render_pyproject (n : String) :
    (render pyprojectTemplate n).data
      = pyprojectPre.data ++ (n.data ++ pyprojectPost.data) := by
  show replaceAux placeholder.data n.data 0 pyprojectTemplate.data = _
  rw [pyprojectTemplate_split]
  rw [show placeholder.data = '\x7b' :: "project_name\x7d".data from rfl]
  rw [replaceAux_pre _ _ _ (by decide)]
  rw [show ('\x7b' :: "project_name\x7d".data) = placeholder.data from rfl]
  rw [replaceAux_match _ _ (by decide)]
  rw [replaceAux_no_occur _ (by decide)]

theorem render_id_of_no_occur {t : String}
    (h : occursIn placeholder.data t.data = false) (n : String) : render t n = t := by
  show (⟨replaceAux placeholder.data n.data 0 t.data⟩ : String) = t
  rw [replaceAux_no_occur _ h]

theorem subset_dirPrefixes {dest : FPath} {d : FPath} :
    ∀ {L : List FPath}, d ∈ L → ∀ {q : FPath}, q ∈ prefixesNE (dest ++ d) →
      q ∈ dirPrefixes dest L := by
  intro L
  induction L with
  | nil => intro hd; cases hd
  | cons x rest ih =>
    intro hd q hq
    rcases List.mem_cons.mp hd with rfl | hd
    · exact List.mem_append.mpr (Or.inl hq)
    · exact List.mem_append.mpr (Or.inr (ih hd hq))

theorem templateFor_of_mem_distinct {dest : FPath} {e : FPath × String} :
    ∀ {L : List (FPath × String)}, keysDistinct L = true → e ∈ L →
      templateFor dest (dest ++ e.1) L = some e.2 := by
  intro L
  induction L with
  | nil => intro _ he; cases he
  | cons x rest ih =>
    intro hk he
    simp only [keysDistinct, Bool.and_eq_true] at hk
    rcases List.mem_cons.mp he with rfl | he
    · simp [templateFor]
    · have hne : e.1 ≠ x.1 := by
        intro hcontra
        have : rest.any (fun y => decide (y.1 = x.1)) = true :=
          List.any_eq_true.mpr ⟨e, he, by simp [hcontra]⟩
        rw [this] at hk
        simp at hk
      have : dest ++ e.1 ≠ dest ++ x.1 := by
        intro hcontra
        exact hne (List.append_cancel_left hcontra)
      simp only [templateFor, this, if_false]
      exact ih hk.2 he

theorem dirs_ne_nil : DIRECTORIES.all (fun d => !(decide (d = []))) = true := by decide

/-- The content of `fs` at `p` contains `sub` as a substring. -/
def fileContains (fs : FS) (p : FPath) (sub : String) : Bool :=
  match lookupFile fs p with
  | some s => occursIn sub.data s.data
  | none => false

/-- C1: for every initial filesystem, destination path and project name,
after `create_structure` returns successfully all ten directories of
`DIRECTORIES` and all seventeen files of `FILES` exist under the
destination, and the two tables are exactly the fixed layout of spec
section 6. -/
theorem c1_scaffold_creates_all_directories_and_files
    (fs : FS) (dest : FPath) (name : String) (fs' : FS)
    (h : create_structure fs dest name = .ok fs') :
    DIRECTORIES =
      [ ["src"], ["src", "apps"], ["src", "config"], ["src", "config", "settings"],
        ["src", "core"], ["src", "core", "application"], ["src", "core", "domain"],
        ["src", "core", "infrastructure"], ["src", "core", "presentation"],
        ["tests"] ] ∧
    FILES.map Prod.fst =
      [ ["README.md"], ["manage.py"], ["pyproject.toml"],
        ["src", "__init__.py"], ["src", "config", "__init__.py"],
        ["src", "config", "settings", "__init__.py"],
        ["src", "config", "settings", "base.py"], ["src", "config", "urls.py"],
        ["src", "config", "wsgi.py"], ["src", "config", "asgi.py"],
        ["src", "apps", "__init__.py"], ["src", "core", "__init__.py"],
        ["src", "core", "application", "__init__.py"],
        ["src", "core", "domain", "__init__.py"],
        ["src", "core", "infrastructure", "__init__.py"],
        ["src", "core", "presentation", "__init__.py"],
        ["tests", "__init__.py"] ] ∧
    DIRECTORIES.all (fun d => isDir fs' (dest ++ d)) = true ∧
    FILES.all (fun e => isFile fs' (dest ++ e.1)) = true := by
  obtain ⟨hdir, hlook, -⟩ := create_structure_ok_elim h
  refine ⟨rfl, rfl, ?_, ?_⟩
  · apply List.all_eq_true.mpr
    intro d hd
    have hdne : d ≠ [] := by
      have := List.all_eq_true.mp dirs_ne_nil d hd
      simpa using this
    have hddne : dest ++ d ≠ [] := by
      intro hcontra
      exact hdne (List.append_eq_nil.mp hcontra).2
    have hmem : dest ++ d ∈ dirPrefixes dest DIRECTORIES :=
      subset_dirPrefixes hd (mem_prefixesNE_self _ hddne)
    have hmem2 : memP (allMkdirPrefixes dest) (dest ++ d) = true :=
      (memP_iff_mem _ _).mpr (by
        simp only [allMkdirPrefixes, List.mem_append]
        exact Or.inl (Or.inr hmem))
    rw [hdir (dest ++ d), hmem2]
    rfl
  · apply List.all_eq_true.mpr
    intro e he
    have htf := @templateFor_of_mem_distinct dest e FILES keysDistinct_FILES he
    simp [isFile, hlook (dest ++ e.1), htf, Option.elim]

theorem c1_witness :
    DIRECTORIES =
      [ ["src"], ["src", "apps"], ["src", "config"], ["src", "config", "settings"],
        ["src", "core"], ["src", "core", "application"], ["src", "core", "domain"],
        ["src", "core", "infrastructure"], ["src", "core", "presentation"],
        ["tests"] ] ∧
    FILES.map Prod.fst =
      [ ["README.md"], ["manage.py"], ["pyproject.toml"],
        ["src", "__init__.py"], ["src", "config", "__init__.py"],
        ["src", "config", "settings", "__init__.py"],
        ["src", "config", "settings", "base.py"], ["src", "config", "urls.py"],
        ["src", "config", "wsgi.py"], ["src", "config", "asgi.py"],
        ["src", "apps", "__init__.py"], ["src", "core", "__init__.py"],
        ["src", "core", "application", "__init__.py"],
        ["src", "core", "domain", "__init__.py"],
        ["src", "core", "infrastructure", "__init__.py"],
        ["src", "core", "presentation", "__init__.py"],
        ["tests", "__init__.py"] ] ∧
    DIRECTORIES.all (fun d =>
      isDir (okState (create_structure ⟨[], []⟩ ["w1"] "app")) (["w1"] ++ d)) = true ∧
    FILES.all (fun e =>
      isFile (okState (create_structure ⟨[], []⟩ ["w1"] "app")) (["w1"] ++ e.1)) = true :=
  c1_scaffold_creates_all_directories_and_files ⟨[], []⟩ ["w1"] "app"
    (okState (create_structure ⟨[], []⟩ ["w1"] "app")) rfl

/-- C2: a successful run writes, for every `(relativePath, template)`
pair and for any initial filesystem (so regardless of any pre-existing
file at the path: unconditional overwrite), exactly the template with
every occurrence of the placeholder replaced by the supplied name; in
particular `pyproject.toml` is the literal prefix, the verbatim name,
and the literal suffix, and hence contains the supplied name, for any
supplied name. -/
theorem c2_scaffold_writes_rendered_templates
    (fs : FS) (dest : FPath) (name : String) (fs' : FS)
    (h : create_structure fs dest name = .ok fs') :
    FILES.all (fun e => decide (lookupFile fs' (dest ++ e.1)
      = some (render e.2 name))) = true ∧
    lookupFile fs' (dest ++ ["pyproject.toml"]) = some (render pyprojectTemplate name) ∧
    (render pyprojectTemplate name).data
      = pyprojectPre.data ++ (name.data ++ pyprojectPost.data) ∧
    occursIn name.data (render pyprojectTemplate name).data = true := by
  obtain ⟨-, hlook, -⟩ := create_structure_ok_elim h
  have hwrites : ∀ e ∈ FILES, lookupFile fs' (dest ++ e.1) = some (render e.2 name) := by
    intro e he
    have htf := @templateFor_of_mem_distinct dest e FILES keysDistinct_FILES he
    rw [hlook (dest ++ e.1), htf]
    rfl
  refine ⟨?_, ?_, render_pyproject name, ?_⟩
  · apply List.all_eq_true.mpr
    intro e he
    exact decide_eq_true (hwrites e he)
  · exact hwrites (["pyproject.toml"], pyprojectTemplate) (by simp [FILES])
  · rw [render_pyproject name]
    exact occursIn_sandwich name.data pyprojectPre.data pyprojectPost.data

theorem c2_witness :
    FILES.all (fun e => decide (lookupFile
      (okState (create_structure ⟨[], []⟩ ["w2"] "mi_app")) (["w2"] ++ e.1)
      = some (render e.2 "mi_app"))) = true ∧
    lookupFile (okState (create_structure ⟨[], []⟩ ["w2"] "mi_app"))
      (["w2"] ++ ["pyproject.toml"]) = some (render pyprojectTemplate "mi_app") ∧
    (render pyprojectTemplate "mi_app").data
      = pyprojectPre.data ++ (("mi_app" : String).data ++ pyprojectPost.data) ∧
    occursIn ("mi_app" : String).data (render pyprojectTemplate "mi_app").data = true :=
  c2_scaffold_writes_rendered_templates ⟨[], []⟩ ["w2"] "mi_app"
    (okState (create_structure ⟨[], []⟩ ["w2"] "mi_app")) rfl

/-- The ten `__init__`-style marker paths of the file table. -/
def markerPaths : List FPath :=
  [ ["src", "__init__.py"], ["src", "config", "__init__.py"],
    ["src", "config", "settings", "__init__.py"], ["src", "apps", "__init__.py"],
    ["src", "core", "__init__.py"], ["src", "core", "application", "__init__.py"],
    ["src", "core", "domain", "__init__.py"],
    ["src", "core", "infrastructure", "__init__.py"],
    ["src", "core", "presentation", "__init__.py"], ["tests", "__init__.py"] ]

/-- C5 counterexample: on a fresh destination the marker file
`src/__init__.py` is written with content `"\n"` (a single newline, one
byte), not with empty content (zero bytes) as the claim states. -/
theorem c5_counterexample :
    lookupFile (okState (create_structure ⟨[], []⟩ ["w5"] "app"))
      ["w5", "src", "__init__.py"] = some "\n" ∧
    ¬ (lookupFile (okState (create_structure ⟨[], []⟩ ["w5"] "app"))
      ["w5", "src", "__init__.py"] = some "") :=
  ⟨by decide, by decide⟩

/-- C5 (amended): each `__init__`-style marker file of the file table is
written with content consisting of exactly one newline character (one
byte), for every destination and project name, on every successful
run. -/
theorem c5_markers_single_newline
    (fs : FS) (dest : FPath) (name : String) (fs' : FS)
    (h : create_structure fs dest name = .ok fs') :
    markerPaths.all (fun rel =>
      decide (lookupFile fs' (dest ++ rel) = some "\n")) = true := by
  obtain ⟨-, hlook, -⟩ := create_structure_ok_elim h
  apply List.all_eq_true.mpr
  intro rel hrel
  have hmem : (rel, ("\n" : String)) ∈ FILES := by
    fin_cases hrel <;> simp [FILES]
  have htf : templateFor dest (dest ++ rel) FILES = some "\n" :=
    templateFor_of_mem_distinct keysDistinct_FILES hmem
  apply decide_eq_true
  rw [hlook (dest ++ rel), htf]
  show some (render "\n" name) = some "\n"
  rw [render_id_of_no_occur (by decide) name]

theorem c5_witness :
    markerPaths.all (fun rel =>
      decide (lookupFile (okState (create_structure ⟨[], []⟩ ["w5b"] "app5"))
        (["w5b"] ++ rel) = some "\n")) = true :=
  c5_markers_single_newline ⟨[], []⟩ ["w5b"] "app5"
    (okState (create_structure ⟨[], []⟩ ["w5b"] "app5")) rfl

/-- C9: frame property of a successful run.  Every path that is not one
of the written file paths keeps its exact prior content; a pre-existing
directory stays a directory; a pre-existing file stays a file; and the
directory set grows exactly by the created prefixes (destination,
`DIRECTORIES` entries and file parents, with their ancestors), so
nothing outside that set is created and nothing is deleted. -/
theorem c9_frame
    (fs : FS) (dest : FPath) (name : String) (fs' : FS) (q : FPath)
    (h : create_structure fs dest name = .ok fs')
    (hq : keyMemP dest FILES q = false) :
    lookupFile fs' q = lookupFile fs q ∧
    isDir fs' q = (memP (allMkdirPrefixes dest) q || isDir fs q) ∧
    (isDir fs q = true → isDir fs' q = true) ∧
    (isFile fs q = true → isFile fs' q = true) := by
  obtain ⟨hdir, hlook, -⟩ := create_structure_ok_elim h
  have hpre : lookupFile fs' q = lookupFile fs q := by
    rw [hlook q, templateFor_none hq]
    rfl
  refine ⟨hpre, hdir q, ?_, ?_⟩
  · intro hd
    rw [hdir q, hd]
    cases memP (allMkdirPrefixes dest) q <;> rfl
  · intro hf
    simp only [isFile] at hf ⊢
    rw [hpre]
    exact hf

theorem c9_witness :
    lookupFile (okState (create_structure ⟨[], [(["w9", "keep.txt"], "data")]⟩
      ["w9"] "app")) ["w9", "keep.txt"] = lookupFile ⟨[], [(["w9", "keep.txt"], "data")]⟩
      ["w9", "keep.txt"] ∧
    isDir (okState (create_structure ⟨[], [(["w9", "keep.txt"], "data")]⟩
      ["w9"] "app")) ["w9", "keep.txt"]
      = (memP (allMkdirPrefixes ["w9"]) ["w9", "keep.txt"] ||
          isDir ⟨[], [(["w9", "keep.txt"], "data")]⟩ ["w9", "keep.txt"]) ∧
    (isDir (⟨[], [(["w9", "keep.txt"], "data")]⟩ : FS) ["w9", "keep.txt"] = true →
      isDir (okState (create_structure ⟨[], [(["w9", "keep.txt"], "data")]⟩
        ["w9"] "app")) ["w9", "keep.txt"] = true) ∧
    (isFile (⟨[], [(["w9", "keep.txt"], "data")]⟩ : FS) ["w9", "keep.txt"] = true →
      isFile (okState (create_structure ⟨[], [(["w9", "keep.txt"], "data")]⟩
        ["w9"] "app")) ["w9", "keep.txt"] = true) :=
  c9_frame ⟨[], [(["w9", "keep.txt"], "data")]⟩ ["w9"] "app"
    (okState (create_structure ⟨[], [(["w9", "keep.txt"], "data")]⟩ ["w9"] "app"))
    ["w9", "keep.txt"] rfl (by decide)

/-- C4: `create_structure` succeeds exactly when no genuine filesystem
collision exists (`scaffoldOk`): a directory to be created colliding
with an existing regular file, or a file to be written colliding with an
existing directory.  In particular it never raises merely because the
destination root, any `DIRECTORIES` directory, any needed parent, or any
written file already exists — `scaffoldOk` never inspects the existing
directory set for the created directories nor the existing contents of
the written files. -/
theorem c4_succeeds_iff_no_collision (fs : FS) (dest : FPath) (name : String) :
    isOkE (create_structure fs dest name) = scaffoldOk fs dest :=
  create_structure_isOkE

/-- C3: idempotence.  If a run succeeds, a second run with the same
destination and name also succeeds, and the resulting state has the same
directories and the same file contents at every path — the second pass
re-creates existing directories (a no-op) and overwrites every templated
file with the identical rendered content. -/
theorem c3_idempotent (fs : FS) (dest : FPath) (name : String) (fs1 : FS) (q : FPath)
    (h : create_structure fs dest name = .ok fs1) :
    isOkE (create_structure fs1 dest name) = true ∧
    isDir (okState (create_structure fs1 dest name)) q = isDir fs1 q ∧
    lookupFile (okState (create_structure fs1 dest name)) q = lookupFile fs1 q := by
  obtain ⟨hdir1, hlook1, hsc⟩ := create_structure_ok_elim h
  simp only [scaffoldOk, Bool.and_eq_true] at hsc
  have hscA : ∀ p, memP (allMkdirPrefixes dest) p = true → isFile fs p = false := by
    intro p hp
    have := List.all_eq_true.mp hsc.1 p ((memP_iff_mem _ _).mp hp)
    simpa using this
  have hscB : ∀ e ∈ FILES, isDir fs (dest ++ e.1) = false := by
    intro e he
    have := List.all_eq_true.mp hsc.2 e he
    simpa using this
  have hsc1 : scaffoldOk fs1 dest = true := by
    simp only [scaffoldOk, Bool.and_eq_true]
    constructor
    · apply List.all_eq_true.mpr
      intro p hp
      simp only [Bool.not_eq_true']
      have hpmem : memP (allMkdirPrefixes dest) p = true := (memP_iff_mem _ _).mpr hp
      have hk : keyMemP dest FILES p = false := by
        cases hk : keyMemP dest FILES p with
        | false => rfl
        | true =>
          exfalso
          obtain ⟨e, he, rfl⟩ := keyMemP_true_elim hk
          have hnw := @mkdirPrefixes_not_written dest e.1 (keyMemF_of_mem he)
          rw [hnw] at hpmem
          cases hpmem
      have hsame : lookupFile fs1 p = lookupFile fs p := by
        rw [hlook1 p, templateFor_none hk]
        rfl
      have := hscA p hpmem
      simp only [isFile] at this ⊢
      rw [hsame]
      exact this
    · apply List.all_eq_true.mpr
      intro e he
      simp only [Bool.not_eq_true']
      rw [hdir1 (dest ++ e.1)]
      rw [@mkdirPrefixes_not_written dest e.1 (keyMemF_of_mem he)]
      simp [hscB e he]
  have hok2 : isOkE (create_structure fs1 dest name) = true :=
    create_structure_ok_of hsc1
  have heq2 := ok_of_isOkE hok2
  obtain ⟨hdir2, hlook2, -⟩ := create_structure_ok_elim heq2
  refine ⟨hok2, ?_, ?_⟩
  · rw [hdir2 q, hdir1 q]
    cases memP (allMkdirPrefixes dest) q <;> simp
  · rw [hlook2 q]
    cases htf : templateFor dest q FILES with
    | none => rfl
    | some t =>
      show some (render t name) = lookupFile fs1 q
      rw [hlook1 q, htf]
      rfl

theorem c3_witness :
    isOkE (create_structure (okState (create_structure ⟨[], []⟩ ["w3"] "app3"))
      ["w3"] "app3") = true ∧
    isDir (okState (create_structure
        (okState (create_structure ⟨[], []⟩ ["w3"] "app3")) ["w3"] "app3"))
      ["w3", "pyproject.toml"]
      = isDir (okState (create_structure ⟨[], []⟩ ["w3"] "app3"))
        ["w3", "pyproject.toml"] ∧
    lookupFile (okState (create_structure
        (okState (create_structure ⟨[], []⟩ ["w3"] "app3")) ["w3"] "app3"))
      ["w3", "pyproject.toml"]
      = lookupFile (okState (create_structure ⟨[], []⟩ ["w3"] "app3"))
        ["w3", "pyproject.toml"] :=
  c3_idempotent ⟨[], []⟩ ["w3"] "app3"
    (okState (create_structure ⟨[], []⟩ ["w3"] "app3")) ["w3", "pyproject.toml"] rfl

/-- Every file-table entry other than `README.md` and `pyproject.toml`
has a template without any occurrence of the placeholder token. -/
theorem plain_templates_no_placeholder :
    FILES.all (fun e =>
      ((decide (e.1 = ["README.md"]) || decide (e.1 = ["pyproject.toml"])) ||
        !(occursIn placeholder.data e.2.data))) = true := by decide

/-- C7: project-name noninterference.  For the same initial state and
destination and any two project names, two successful runs write the
identical content to every file path other than `README.md` and
`pyproject.toml`: only those two files have the name substituted in. -/
theorem c7_noninterference (fs : FS) (dest : FPath) (n1 n2 : String)
    (fs1 fs2 : FS)
    (h1 : create_structure fs dest n1 = .ok fs1)
    (h2 : create_structure fs dest n2 = .ok fs2) :
    FILES.all (fun e =>
      ((decide (e.1 = ["README.md"]) || decide (e.1 = ["pyproject.toml"])) ||
        decide (lookupFile fs1 (dest ++ e.1) = lookupFile fs2 (dest ++ e.1)))) = true := by
  obtain ⟨-, hl1, -⟩ := create_structure_ok_elim h1
  obtain ⟨-, hl2, -⟩ := create_structure_ok_elim h2
  apply List.all_eq_true.mpr
  intro e he
  have hfact := List.all_eq_true.mp plain_templates_no_placeholder e he
  cases hx : (decide (e.1 = ["README.md"]) || decide (e.1 = ["pyproject.toml"])) with
  | true => simp [hx]
  | false =>
    have hocc' : occursIn placeholder.data e.2.data = false := by
      rw [hx] at hfact
      simpa using hfact
    have htf := @templateFor_of_mem_distinct dest e FILES keysDistinct_FILES he
    have hEq : lookupFile fs1 (dest ++ e.1) = lookupFile fs2 (dest ++ e.1) := by
      rw [hl1 (dest ++ e.1), hl2 (dest ++ e.1), htf]
      show some (render e.2 n1) = some (render e.2 n2)
      rw [render_id_of_no_occur hocc' n1, render_id_of_no_occur hocc' n2]
    simp [hx, hEq]

theorem c7_witness :
    FILES.all (fun e =>
      ((decide (e.1 = ["README.md"]) || decide (e.1 = ["pyproject.toml"])) ||
        decide (lookupFile (okState (create_structure ⟨[], []⟩ ["w7"] "alpha"))
            (["w7"] ++ e.1)
          = lookupFile (okState (create_structure ⟨[], []⟩ ["w7"] "beta"))
            (["w7"] ++ e.1)))) = true :=
  c7_noninterference ⟨[], []⟩ ["w7"] "alpha" "beta"
    (okState (create_structure ⟨[], []⟩ ["w7"] "alpha"))
    (okState (create_structure ⟨[], []⟩ ["w7"] "beta")) rfl rfl

/-- C6: running the scaffolder on a fresh empty destination with project
name `"mi_proyecto"` succeeds and produces a `manage.py` containing the
`DJANGO_SETTINGS_MODULE` reference to `src.config.settings.base`, and a
`pyproject.toml` containing the line `name = "mi_proyecto"`. -/
theorem c6_demo_mi_proyecto :
    isOkE (create_structure ⟨[], []⟩ ["tmp"] "mi_proyecto") = true ∧
    fileContains (okState (create_structure ⟨[], []⟩ ["tmp"] "mi_proyecto"))
      ["tmp", "manage.py"] "DJANGO_SETTINGS_MODULE" = true ∧
    fileContains (okState (create_structure ⟨[], []⟩ ["tmp"] "mi_proyecto"))
      ["tmp", "manage.py"] "src.config.settings.base" = true ∧
    fileContains (okState (create_structure ⟨[], []⟩ ["tmp"] "mi_proyecto"))
      ["tmp", "pyproject.toml"] "name = \"mi_proyecto\"" = true :=
  ⟨by decide, by decide, by decide, by decide⟩

/-- The parsed command line of the scaffold variant. -/
structure Args where
  destination : String
  project_name : String
deriving Repr, DecidableEq

/-- Splits an argument at its first `=` into the option stem and, when
an `=` is present, the inline value after it (which may itself contain
further `=` characters), as the argument parser does for long
options. -/
def splitEq : List Char → List Char × Option (List Char)
  | [] => ([], none)
  | c :: rest =>
    if c = '=' then ([], some rest)
    else
      match splitEq rest with
      | (s, v) => (c :: s, v)

/-- ASCII decimal digit. -/
def isDigitCh (c : Char) : Bool :=
  decide ('0' ≤ c) && decide (c ≤ '9')

/-- The decimal-point alternative of the argument parser's
negative-number pattern, after the leading dash: optional digits, a
decimal point, then at least one digit, and nothing else. -/
def negNumTail : List Char → Bool
  | [] => false
  | c :: rest =>
    if c = '.' then !rest.isEmpty && rest.all isDigitCh
    else isDigitCh c && negNumTail rest

/-- The argument parser's anchored negative-number pattern: a dash
followed either by at least one digit, or by optional digits, a decimal
point and at least one digit.  Such arguments are classified as
positionals, because this parser declares no digit-like option
strings. -/
def looksNegNumber : List Char → Bool
  | '-' :: rest => (!rest.isEmpty && rest.all isDigitCh) || negNumTail rest
  | _ => false

/-- The argument parser's classification of an argument as an option
string: it begins with the dash prefix character, is longer than the
bare `-` (which is a positional), does not match the negative-number
pattern, and contains no space; every other argument is a
positional. -/
def isOptionLike (a : String) : Bool :=
  match a.data with
  | '-' :: c :: rest =>
    !(looksNegNumber ('-' :: c :: rest)) &&
      !(('-' :: c :: rest).any (fun x => decide (x = ' ')))
  | _ => false

/-- An argument invokes the `--project-name` option: its stem (the part
before any inline `=`) is `--project-name` itself or a prefix
abbreviation of it of length at least three (`--p`, `--pr`, ...).  The
parser's only other option strings are `-h`/`--help`, which share no
prefix of length three with `--project-name`, so each such stem is an
unambiguous abbreviation. -/
def invokesProjectName (a : String) : Bool :=
  decide (3 ≤ (splitEq a.data).1.length) &&
    isPrefixL (splitEq a.data).1 ("--project-name" : String).data

/-- Scanning after the `--` separator: every remaining argument is a
positional, and a second positional is a usage error. -/
def parsePosOnly : List String → Option String → String → Option Args
  | [], dst, name => some ⟨dst.getD ".", name⟩
  | a :: rest, dst, name =>
    if dst.isNone then parsePosOnly rest (some a) name else none

/-- Worker for `parse_args`: scans the argument list carrying the
positional destination seen so far, the current project name, and
whether the previous argument was the `--project-name` option still
awaiting its value.  An awaited value is taken from the next argument
unless that argument is itself option-like (a usage error); an argument
whose stem abbreviates `--project-name` sets the name from its inline
`=` value or awaits the next argument; `--` switches to positional-only
scanning; any other option-like argument (`-h`/`--help` and its
abbreviations, or an unrecognized flag) yields no parse result,
modelling the parser's help exit or usage error; everything else is a
positional, a second positional being a usage error. -/
def parseArgsGo : List String → Option String → String → Bool → Option Args
  | [], dst, name, pending =>
    if pending then none else some ⟨dst.getD ".", name⟩
  | a :: rest, dst, name, pending =>
    if pending then
      if isOptionLike a then none
      else parseArgsGo rest dst a false
    else if invokesProjectName a then
      parseArgsGo rest dst ((((splitEq a.data).2).map String.mk).getD name)
        ((splitEq a.data).2).isNone
    else if a = "--" then
      parsePosOnly rest dst name
    else if isOptionLike a then
      none
    else if dst.isNone then
      parseArgsGo rest (some a) name false
    else
      none

/-- Embedding of `parse_args`: one optional positional `destination`
(default `"."`) and the option `--project-name` with default
`"django_clean_architecture"`, as declared by the source's argument
parser; `none` models every outcome in which `main` never receives a
parsed result (usage error or help exit). -/
def parse_args (argv : List String) : Option Args :=
  parseArgsGo argv none "django_clean_architecture" false

/-- The inline `--project-name=VALUE` form sets the project name. -/
theorem parse_args_inline_form :
    parse_args ["--project-name=x"] = some ⟨".", "x"⟩ := rfl

/-- A prefix abbreviation with a separate value sets the project name. -/
theorem parse_args_abbreviated_form :
    parse_args ["--pr", "x", "d"] = some ⟨"d", "x"⟩ := rfl

/-- An inline abbreviation also sets the project name. -/
theorem parse_args_abbreviated_inline_form :
    parse_args ["--proj=y"] = some ⟨".", "y"⟩ := rfl

/-- An unrecognized dash-led argument is a usage error, not a
positional. -/
theorem parse_args_unknown_option : parse_args ["-z"] = none := rfl

theorem parsePosOnly_name :
    ∀ {argv : List String} {dst : Option String} {name : String} {args : Args},
      parsePosOnly argv dst name = some args → args.project_name = name := by
  intro argv
  induction argv with
  | nil =>
    intro dst name args h
    have h' : some (⟨dst.getD ".", name⟩ : Args) = some args := h
    cases h'
    rfl
  | cons a rest ih =>
    intro dst name args h
    cases dst with
    | none => exact ih h
    | some d => cases h

theorem parseArgsGo_cons (a : String) (rest : List String) (dst : Option String)
    (name : String) (pending : Bool) :
    parseArgsGo (a :: rest) dst name pending =
      (if pending then
        if isOptionLike a then none
        else parseArgsGo rest dst a false
      else if invokesProjectName a then
        parseArgsGo rest dst ((((splitEq a.data).2).map String.mk).getD name)
          ((splitEq a.data).2).isNone
      else if a = "--" then
        parsePosOnly rest dst name
      else if isOptionLike a then
        none
      else if dst.isNone then
        parseArgsGo rest (some a) name false
      else
        none) := by rfl

theorem parseArgsGo_name :
    ∀ {argv : List String} {dst : Option String} {name : String} {args : Args},
      (∀ a ∈ argv, invokesProjectName a = false) →
      parseArgsGo argv dst name false = some args → args.project_name = name := by
  intro argv
  induction argv with
  | nil =>
    intro dst name args _ h
    have h' : some (⟨dst.getD ".", name⟩ : Args) = some args := h
    cases h'
    rfl
  | cons a rest ih =>
    intro dst name args hflag h
    have ha : invokesProjectName a = false := hflag a (List.mem_cons_self _ _)
    rw [parseArgsGo_cons] at h
    rw [if_neg (by simp)] at h
    rw [if_neg (by simp [ha])] at h
    by_cases hsep : a = "--"
    · rw [if_pos hsep] at h
      exact parsePosOnly_name h
    · rw [if_neg hsep] at h
      cases hop : isOptionLike a with
      | true =>
        rw [if_pos hop] at h
        cases h
      | false =>
        rw [if_neg (by simp [hop])] at h
        cases dst with
        | none =>
          rw [if_pos (show (none : Option String).isNone = true from rfl)] at h
          exact ih (fun x hx => hflag x (List.mem_cons_of_mem _ hx)) h
        | some d =>
          rw [if_neg (by simp)] at h
          cases h

/-- C10: when the CLI is invoked without the `--project-name` option (in
any of its recognized spellings: the exact flag, a prefix abbreviation,
or an inline `=` form), the project name is the literal default
`"django_clean_architecture"`; consequently the rendered
`pyproject.toml` contains `name = "django_clean_architecture"` and the
rendered `README.md` begins with the heading
`# django_clean_architecture`. -/
theorem c10_default_project_name (argv : List String) (args : Args)
    (hflag : ∀ a ∈ argv, invokesProjectName a = false)
    (h : parse_args argv = some args) :
    args.project_name = "django_clean_architecture" ∧
    occursIn ("name = \"django_clean_architecture\"" : String).data
      (render pyprojectTemplate args.project_name).data = true ∧
    isPrefixL ("# django_clean_architecture\n" : String).data
      (render readmeTemplate args.project_name).data = true := by
  have hname : args.project_name = "django_clean_architecture" :=
    parseArgsGo_name hflag h
  refine ⟨hname, ?_, ?_⟩ <;> rw [hname] <;> decide

theorem c10_witness :
    (Args.mk "proj" "django_clean_architecture").project_name
      = "django_clean_architecture" ∧
    occursIn ("name = \"django_clean_architecture\"" : String).data
      (render pyprojectTemplate
        (Args.mk "proj" "django_clean_architecture").project_name).data = true ∧
    isPrefixL ("# django_clean_architecture\n" : String).data
      (render readmeTemplate
        (Args.mk "proj" "django_clean_architecture").project_name).data = true :=
  c10_default_project_name ["proj"] (Args.mk "proj" "django_clean_architecture")
    (by decide) rfl

/-- Error taxonomy of the external-generator variant (spec section 7). -/
inductive GenError where
  | externalToolNotFound
  | destinationAlreadyExists
  | externalToolFailed
deriving Repr, DecidableEq

/-- Modelled from the spec: the external-generator code path of this
repository is not under `src/` (only the scaffold variant is), so this
definition follows the spec's words (sections 4.1, 7, 8): resolve the
external executable by name lookup on the search path, failing with
`ExternalToolNotFound` when absent; then fail with
`DestinationAlreadyExists` when the target subdirectory
`destinationRoot/projectName` already exists; otherwise delegate
entirely to the external tool, surfacing its non-zero exit status as
`ExternalToolFailed`.  The tool is a parameter (`toolRun`, returning the
new filesystem and its success bit); `toolFound` records whether the
executable was located.  The returned filesystem is unchanged on both
precondition failures. -/
def external_generate (toolFound : Bool)
    (toolRun : FS → FPath → String → FS × Bool)
    (fs : FS) (dest : FPath) (name : String) : FS × Except GenError FPath :=
  if !toolFound then
    (fs, .error .externalToolNotFound)
  else if isDir fs (dest ++ [name]) || isFile fs (dest ++ [name]) then
    (fs, .error .destinationAlreadyExists)
  else
    match toolRun fs dest name with
    | (fs', true) => (fs', .ok (dest ++ [name]))
    | (fs', false) => (fs', .error .externalToolFailed)

/-- C8: with the executable missing the operation fails with
`ExternalToolNotFound` before the directory-existence check (the result
is the same for every filesystem, in particular when the target exists)
and performs no filesystem mutation; with the executable present and the
target subdirectory existing it fails with `DestinationAlreadyExists`
and performs no writes. -/
theorem c8_external_generator_preconditions
    (toolRun : FS → FPath → String → FS × Bool)
    (fs : FS) (dest : FPath) (name : String) :
    external_generate false toolRun fs dest name
      = (fs, .error .externalToolNotFound) ∧
    ((isDir fs (dest ++ [name]) || isFile fs (dest ++ [name])) = true →
      external_generate true toolRun fs dest name
        = (fs, .error .destinationAlreadyExists)) := by
  constructor
  · rfl
  · intro h
    simp [external_generate, h]

theorem c8_witness :
    external_generate false (fun s _ _ => (s, true)) ⟨[["d", "p"]], []⟩ ["d"] "p"
      = (⟨[["d", "p"]], []⟩, .error .externalToolNotFound) ∧
    external_generate true (fun s _ _ => (s, true)) ⟨[["d", "p"]], []⟩ ["d"] "p"
      = (⟨[["d", "p"]], []⟩, .error .destinationAlreadyExists) :=
  ⟨(c8_external_generator_preconditions (fun s _ _ => (s, true))
      ⟨[["d", "p"]], []⟩ ["d"] "p").1,
    (c8_external_generator_preconditions (fun s _ _ => (s, true))
      ⟨[["d", "p"]], []⟩ ["d"] "p").2 (by decide)⟩
